import Mathlib

/-!
Verification of the WebKit cache / JSON components.

Part 1 embeds the JSON parser of wtf/JSONValues.cpp (WTF::JSONImpl):
the token scanner, the recursive value builder with its depth limit,
and Value::parseJSON with its trailing-character check.  Characters are
UChar code units modelled as Nat; input buffers are lists of code units,
with the C pointer pair (start, end) modelled as the suffix list that
starts at the pointer.  The C recursion has no fuel parameter; the Lean
embedding adds one so that the function is total, and parseJSON invokes
the builder with fuel that dominates the depth of the call tree
(every two nested calls consume at least one input character).
-/

set_option maxHeartbeats 1000000

namespace WK

namespace JSONImpl

/-- WTF::isSpaceOrNewline restricted to ASCII (space and 0x9..0xD);
the library helper itself is external to the repository. -/
def isSpaceOrNewline (c : Nat) : Bool :=
  c == 0x20 || (0x9 ≤ c && c ≤ 0xD)

/-- WTF::isASCIIDigit. -/
def isASCIIDigit (c : Nat) : Bool :=
  0x30 ≤ c && c ≤ 0x39

/-- WTF::isASCIIHexDigit. -/
def isASCIIHexDigit (c : Nat) : Bool :=
  isASCIIDigit c || (0x41 ≤ c && c ≤ 0x46) || (0x61 ≤ c && c ≤ 0x66)

/-- WTF::toASCIIHexValue on one digit: c < 'A' ? c - '0' : (c - 'A' + 10) & 0xF. -/
def toASCIIHexValue1 (c : Nat) : Nat :=
  if c < 0x41 then c - 0x30 else (c - 0x41 + 10) % 16

/-- WTF::toASCIIHexValue on an (upper, lower) digit pair. -/
def toASCIIHexValue (u l : Nat) : Nat :=
  toASCIIHexValue1 u <<< 4 ||| toASCIIHexValue1 l

/-- Token kinds of the scanner (enum class Token). -/
inductive Token where
  | ObjectBegin
  | ObjectEnd
  | ArrayBegin
  | ArrayEnd
  | String
  | Number
  | BoolTrue
  | BoolFalse
  | Null
  | ListSeparator
  | ObjectPairSeparator
  | Invalid
deriving DecidableEq, Repr

/-- Character codes of the C literal "null". -/
def nullLiteral : List Nat := [0x6E, 0x75, 0x6C, 0x6C]

/-- Character codes of the C literal "true". -/
def trueLiteral : List Nat := [0x74, 0x72, 0x75, 0x65]

/-- Character codes of the C literal "false". -/
def falseLiteral : List Nat := [0x66, 0x61, 0x6C, 0x73, 0x65]

/-- parseConstToken: advance past the literal, or fail on mismatch or
end of input.  One quirk of the source is kept: the comparison loop
post-increments both pointers, so a mismatch on the final literal
character still leaves token at its terminating NUL and the function
reports success with tokenEnd past the mismatched character. -/
def parseConstToken : List Nat → List Nat → Option (List Nat)
  | chars, [] => some chars
  | [], _ :: _ => none
  | c :: cs, t :: ts =>
    if c = t then parseConstToken cs ts
    else
      match ts with
      | [] => some cs
      | _ :: _ => none

/-- readInt: consume a nonempty digit run; reject a multi-digit run with a
leading zero unless canHaveLeadingZeros. -/
def readInt (chars : List Nat) (canHaveLeadingZeros : Bool) : Option (List Nat) :=
  let digits := chars.takeWhile isASCIIDigit
  if digits.length = 0 then none
  else if ¬canHaveLeadingZeros ∧ 1 < digits.length ∧ digits.head? = some 0x30 then none
  else some (chars.drop digits.length)

/-- parseNumberToken exponent part: at the position right after the
integer or fraction part ('e'/'E', optional sign, digits). -/
def parseExponentPart : List Nat → Option (List Nat)
  | [] => some []
  | c :: rest =>
    if c = 0x65 ∨ c = 0x45 then
      match rest with
      | [] => none
      | c1 :: rest1 =>
        if c1 = 0x2D ∨ c1 = 0x2B then
          match rest1 with
          | [] => none
          | _ :: _ => readInt rest1 true
        else readInt rest true
    else some (c :: rest)

/-- parseNumberToken: [minus] int [frac] [exp], per RFC 4627. -/
def parseNumberToken (chars : List Nat) : Option (List Nat) :=
  match chars with
  | [] => none
  | c0 :: cs0 =>
    let s1 := if c0 = 0x2D then cs0 else c0 :: cs0
    match readInt s1 false with
    | none => none
    | some s2 =>
      match s2 with
      | [] => some []
      | c2 :: cs2 =>
        if c2 = 0x2E then
          match readInt cs2 true with
          | none => none
          | some s3 => parseExponentPart s3
        else parseExponentPart (c2 :: cs2)

/-- Escape characters the source's switch passes through unchanged
(backslash, slash, b, f, n, r, t, v, double quote). -/
def isSimpleEscape (e : Nat) : Bool :=
  e == 0x5C || e == 0x2F || e == 0x62 || e == 0x66 || e == 0x6E || e == 0x72 ||
    e == 0x74 || e == 0x76 || e == 0x22

/-- parseStringToken escape validation, at the position right after the
backslash: the number of characters a valid escape consumes there, or
none.  The source's readHexDigits calls are the length check plus the
per-digit isASCIIHexDigit checks; a backslash as the final character
makes the C code read past the buffer, modelled as failure. -/
def parseStringEscapeLength (cs : List Nat) : Option Nat :=
  match cs with
  | [] => none
  | e :: es =>
    if e = 0x78 then
      match es with
      | a :: b :: _ =>
        if isASCIIHexDigit a && isASCIIHexDigit b then some 3 else none
      | _ => none
    else if e = 0x75 then
      match es with
      | a :: b :: c2 :: d :: _ =>
        if isASCIIHexDigit a && isASCIIHexDigit b && isASCIIHexDigit c2 && isASCIIHexDigit d
        then some 5 else none
      | _ => none
    else if isSimpleEscape e then some 1
    else none

/-- parseStringToken body, starting right after the opening quote;
returns the suffix right after the closing quote. -/
def parseStringTokenAux : List Nat → Option (List Nat)
  | [] => none
  | c :: cs =>
    if c = 0x5C then
      match parseStringEscapeLength cs with
      | none => none
      | some k => parseStringTokenAux (cs.drop k)
    else if c = 0x22 then some cs
    else parseStringTokenAux cs
termination_by chars => chars.length
decreasing_by
  · simp only [List.length_drop, List.length_cons]
    omega
  · simp only [List.length_cons]
    omega

/-- parseToken: skip isSpaceOrNewline characters, then scan one token.
The result is (token, tokenStart, tokenEnd) as suffix lists; on Invalid
the source leaves tokenStart/tokenEnd unset and no caller reads them, so
the embedding returns the scan position for both. -/
def parseToken (chars : List Nat) : Token × List Nat × List Nat :=
  let s := chars.dropWhile isSpaceOrNewline
  match s with
  | [] => (Token.Invalid, [], [])
  | c :: cs =>
    if c = 0x6E then
      match parseConstToken (c :: cs) nullLiteral with
      | some e => (Token.Null, c :: cs, e)
      | none => (Token.Invalid, c :: cs, c :: cs)
    else if c = 0x74 then
      match parseConstToken (c :: cs) trueLiteral with
      | some e => (Token.BoolTrue, c :: cs, e)
      | none => (Token.Invalid, c :: cs, c :: cs)
    else if c = 0x66 then
      match parseConstToken (c :: cs) falseLiteral with
      | some e => (Token.BoolFalse, c :: cs, e)
      | none => (Token.Invalid, c :: cs, c :: cs)
    else if c = 0x5B then (Token.ArrayBegin, c :: cs, cs)
    else if c = 0x5D then (Token.ArrayEnd, c :: cs, cs)
    else if c = 0x2C then (Token.ListSeparator, c :: cs, cs)
    else if c = 0x7B then (Token.ObjectBegin, c :: cs, cs)
    else if c = 0x7D then (Token.ObjectEnd, c :: cs, cs)
    else if c = 0x3A then (Token.ObjectPairSeparator, c :: cs, cs)
    else if (0x30 ≤ c ∧ c ≤ 0x39) ∨ c = 0x2D then
      match parseNumberToken (c :: cs) with
      | some e => (Token.Number, c :: cs, e)
      | none => (Token.Invalid, c :: cs, c :: cs)
    else if c = 0x22 then
      match parseStringTokenAux cs with
      | some e => (Token.String, c :: cs, e)
      | none => (Token.Invalid, c :: cs, c :: cs)
    else (Token.Invalid, c :: cs, c :: cs)

/-- decodeString escape handling, at the position right after the
backslash: the decoded character and the number of characters consumed.
The hex branches consume digits without re-validating them, as the
source does; a backslash at the end of the range, or a hex escape with
too few characters left, makes the C code read past the range, modelled
as failure (callers only pass ranges already validated by
parseStringToken, where this cannot happen). -/
def decodeStringEscape (cs : List Nat) : Option (Nat × Nat) :=
  match cs with
  | [] => none
  | e :: es =>
    if e = 0x22 ∨ e = 0x2F ∨ e = 0x5C then some (e, 1)
    else if e = 0x62 then some (0x8, 1)
    else if e = 0x66 then some (0xC, 1)
    else if e = 0x6E then some (0xA, 1)
    else if e = 0x72 then some (0xD, 1)
    else if e = 0x74 then some (0x9, 1)
    else if e = 0x76 then some (0xB, 1)
    else if e = 0x78 then
      match es with
      | a :: b :: _ => some (toASCIIHexValue a b, 3)
      | _ => none
    else if e = 0x75 then
      match es with
      | a :: b :: c2 :: d :: _ =>
        some (toASCIIHexValue a b <<< 8 ||| toASCIIHexValue c2 d, 5)
      | _ => none
    else none

/-- decodeString inner loop over the characters between the quotes. -/
def decodeStringAux : List Nat → Option (List Nat)
  | [] => some []
  | c :: cs =>
    if c = 0x5C then
      match decodeStringEscape cs with
      | none => none
      | some (d, k) => (decodeStringAux (cs.drop k)).map (fun r => d :: r)
    else (decodeStringAux cs).map (fun r => c :: r)
termination_by chars => chars.length
decreasing_by
  · simp only [List.length_drop, List.length_cons]
    omega
  · simp only [List.length_cons]
    omega

/-- decodeString wrapper: empty range decodes to the empty string. -/
def decodeString (chars : List Nat) : Option (List Nat) :=
  if chars.isEmpty then some [] else decodeStringAux chars

/-- JSON value tree built by buildValue.  Numbers keep their source
lexeme: charactersToDouble lives in wtf/dtoa outside this repository,
and always reports success on lexemes accepted by parseNumberToken. -/
inductive JValue where
  | null
  | bool (b : Bool)
  | num (lexeme : List Nat)
  | str (chars : List Nat)
  | arr (elems : List JValue)
  | obj (members : List (List Nat × JValue))

/-- Object::setValue: overwrite the value of an existing key in place,
otherwise append the new pair at the end of the order. -/
def setMember (members : List (List Nat × JValue)) (key : List Nat) (v : JValue) :
    List (List Nat × JValue) :=
  if members.any (fun m => m.1 = key)
  then members.map (fun m => if m.1 = key then (key, v) else m)
  else members ++ [(key, v)]

/-- static const int stackLimit = 1000. -/
def stackLimit : Nat := 1000

mutual

/-- buildValue: parse one JSON value starting at chars, returning the
value and the suffix right after it.  The depth argument and the
stackLimit check are the source's; the fuel argument is the embedding's
totality device and strictly decreases on every (mutual) recursive
call. -/
def buildValue : Nat → List Nat → Nat → Option (JValue × List Nat)
  | 0, _, _ => none
  | fuel + 1, chars, depth =>
    if stackLimit < depth then none
    else
      match parseToken chars with
      | (Token.Invalid, _, _) => none
      | (Token.Null, _, te) => some (JValue.null, te)
      | (Token.BoolTrue, _, te) => some (JValue.bool true, te)
      | (Token.BoolFalse, _, te) => some (JValue.bool false, te)
      | (Token.Number, ts, te) => some (JValue.num (ts.take (ts.length - te.length)), te)
      | (Token.String, ts, te) =>
        match decodeString ((ts.drop 1).take (ts.length - te.length - 2)) with
        | none => none
        | some s => some (JValue.str s, te)
      | (Token.ArrayBegin, _, te) => buildArray fuel te depth []
      | (Token.ObjectBegin, _, te) => buildObject fuel te depth []
      | (_, _, _) => none

/-- buildValue's array loop (case Token::ArrayBegin), at the position
right after the opening bracket or after a list separator, with the
elements parsed so far accumulated in reverse. -/
def buildArray : Nat → List Nat → Nat → List JValue → Option (JValue × List Nat)
  | 0, _, _, _ => none
  | fuel + 1, chars, depth, acc =>
    match parseToken chars with
    | (Token.ArrayEnd, _, te) => some (JValue.arr acc.reverse, te)
    | (_, _, _) =>
      match buildValue fuel chars (depth + 1) with
      | none => none
      | some (v, rest) =>
        match parseToken rest with
        | (Token.ListSeparator, _, te2) =>
          match parseToken te2 with
          | (Token.ArrayEnd, _, _) => none
          | (_, _, _) => buildArray fuel te2 depth (v :: acc)
        | (Token.ArrayEnd, _, te2) => some (JValue.arr (v :: acc).reverse, te2)
        | (_, _, _) => none

/-- buildValue's object loop (case Token::ObjectBegin), at the position
right after the opening brace or after a list separator. -/
def buildObject : Nat → List Nat → Nat → List (List Nat × JValue) →
    Option (JValue × List Nat)
  | 0, _, _, _ => none
  | fuel + 1, chars, depth, acc =>
    match parseToken chars with
    | (Token.ObjectEnd, _, te) => some (JValue.obj acc, te)
    | (Token.String, ts, te) =>
      match decodeString ((ts.drop 1).take (ts.length - te.length - 2)) with
      | none => none
      | some key =>
        match parseToken te with
        | (Token.ObjectPairSeparator, _, te2) =>
          match buildValue fuel te2 (depth + 1) with
          | none => none
          | some (v, rest) =>
            match parseToken rest with
            | (Token.ListSeparator, _, te3) =>
              match parseToken te3 with
              | (Token.ObjectEnd, _, _) => none
              | (_, _, _) => buildObject fuel te3 depth (setMember acc key v)
            | (Token.ObjectEnd, _, te3) => some (JValue.obj (setMember acc key v), te3)
            | (_, _, _) => none
        | (_, _, _) => none
    | (_, _, _) => none

end

/-- Fuel handed to buildValue by parseJSON: the call tree of the C
recursion is at most 2n + 2 calls deep on an input of n characters,
since every two nested calls consume at least one character. -/
def jsonFuel (chars : List Nat) : Nat := 2 * chars.length + 2

/-- Value::parseJSON: build one value from the start of the input, then
fail unless every remaining character is isSpaceOrNewline; the output is
only assigned (some) on success. -/
def parseJSON (chars : List Nat) : Option JValue :=
  match buildValue (jsonFuel chars) chars 0 with
  | none => none
  | some (v, rest) => if rest.all isSpaceOrNewline then some v else none

/-- Arbitrary mixture of nesting openers used to exercise the depth
limit: true contributes an array opener (left bracket), false an object
opener (left brace, quote, a, quote, colon). -/
def nestOpeners : List Bool → List Nat
  | [] => []
  | true :: bs => 0x5B :: nestOpeners bs
  | false :: bs => 0x7B :: 0x22 :: 0x61 :: 0x22 :: 0x3A :: nestOpeners bs

end JSONImpl

/-- Association-list update: replace the value of the first pair with
the given key, or append a new pair (the HashMap::set pattern of the
engine's in-memory maps). -/
def setAssoc {α β : Type} [DecidableEq α] : List (α × β) → α → β → List (α × β)
  | [], k, v => [(k, v)]
  | q :: qs, k, v => if q.1 = k then (k, v) :: qs else q :: setAssoc qs k v

namespace NetworkCache

/-- enum class RetrieveDecision (NetworkCache.h). -/
inductive RetrieveDecision where
  | Yes
  | NoDueToHTTPMethod
  | NoDueToConditionalRequest
  | NoDueToReloadIgnoringCache
  | NoDueToStreamingMedia
deriving DecidableEq, Repr

/-- enum class StoreDecision (NetworkCache.h); NoDueToAttachmentResponse
is marked Unused in the source. -/
inductive StoreDecision where
  | Yes
  | NoDueToProtocol
  | NoDueToHTTPMethod
  | NoDueToAttachmentResponse
  | NoDueToNoStoreResponse
  | NoDueToHTTPStatusCode
  | NoDueToNoStoreRequest
  | NoDueToUnlikelyToReuse
  | NoDueToStreamingMedia
deriving DecidableEq, Repr

/-- enum class UseDecision (NetworkCache.h). -/
inductive UseDecision where
  | Use
  | Validate
  | NoDueToVaryingHeaderMismatch
  | NoDueToMissingValidatorFields
  | NoDueToDecodeFailure
  | NoDueToExpiredRedirect
deriving DecidableEq, Repr

/-- Modelled from the spec: requests are opaque attribute bags (method,
URL, partition identity, cache-control directives, flags); the
ResourceRequest class is external to src/. -/
structure Request where
  method : String
  url : String
  partitionKey : String
  isConditional : Bool
  reloadIgnoringCache : Bool
  hasRangeHeader : Bool
  noStoreDirective : Bool
deriving DecidableEq, Repr

/-- Modelled from the spec: responses are opaque attribute bags (status
classification, cache-control directives, content classification); the
ResourceResponse class is external to src/. -/
structure Response where
  isHTTPFamily : Bool
  noStoreDirective : Bool
  statusCodeCacheable : Bool
  unlikelyToReuse : Bool
  isStreamingMedia : Bool
deriving DecidableEq, Repr

/-- Modelled from the spec: the RetrieveDecision policy function (its
implementation file is not under src/, only the enum is).  Left-to-right
evaluation, first matching negative reason wins: non-retrievable method,
explicitly conditional request, reload-bypass-cache flag, range-based
streaming media. -/
def makeRetrieveDecision (req : Request) : RetrieveDecision :=
  if req.method ≠ "GET" then RetrieveDecision.NoDueToHTTPMethod
  else if req.isConditional then RetrieveDecision.NoDueToConditionalRequest
  else if req.reloadIgnoringCache then RetrieveDecision.NoDueToReloadIgnoringCache
  else if req.hasRangeHeader then RetrieveDecision.NoDueToStreamingMedia
  else RetrieveDecision.Yes

/-- Modelled from the spec: the StoreDecision policy function (its
implementation file is not under src/, only the enum is).  Left-to-right
evaluation, first matching negative reason wins: protocol, method,
explicit no-store directive on the request then on the response, HTTP
status code, the low-likelihood-of-reuse heuristic, streaming media. -/
def makeStoreDecision (req : Request) (resp : Response) : StoreDecision :=
  if !resp.isHTTPFamily then StoreDecision.NoDueToProtocol
  else if req.method ≠ "GET" then StoreDecision.NoDueToHTTPMethod
  else if req.noStoreDirective then StoreDecision.NoDueToNoStoreRequest
  else if resp.noStoreDirective then StoreDecision.NoDueToNoStoreResponse
  else if !resp.statusCodeCacheable then StoreDecision.NoDueToHTTPStatusCode
  else if resp.unlikelyToReuse then StoreDecision.NoDueToUnlikelyToReuse
  else if resp.isStreamingMedia then StoreDecision.NoDueToStreamingMedia
  else StoreDecision.Yes

/-- The six exclusion conditions of the StoreDecision policy paired with
the negative reason each produces, in evaluation order; the no-store
exclusion contributes one row for the request directive and one for the
response directive. -/
def storeExclusionTable (req : Request) (resp : Response) : List (Bool × StoreDecision) :=
  [ (!resp.isHTTPFamily, StoreDecision.NoDueToProtocol),
    (req.method != "GET", StoreDecision.NoDueToHTTPMethod),
    (req.noStoreDirective, StoreDecision.NoDueToNoStoreRequest),
    (resp.noStoreDirective, StoreDecision.NoDueToNoStoreResponse),
    (!resp.statusCodeCacheable, StoreDecision.NoDueToHTTPStatusCode),
    (resp.unlikelyToReuse, StoreDecision.NoDueToUnlikelyToReuse),
    (resp.isStreamingMedia, StoreDecision.NoDueToStreamingMedia) ]

/-- Modelled from the spec: CacheKey, a deterministic pure function of
method, URL, partition identity and the per-root salt (the Key class is
not under src/). -/
structure Key where
  method : String
  url : String
  partitionKey : String
  salt : Nat
deriving DecidableEq, Repr

/-- makeCacheKey: pure derivation of the lookup key. -/
def makeCacheKey (salt : Nat) (req : Request) : Key :=
  { method := req.method, url := req.url, partitionKey := req.partitionKey, salt := salt }

/-- Modelled from the spec: an Entry staged by store, not yet durable
until the caller persists it. -/
structure Entry where
  key : Key
  response : Response
  body : List Nat
deriving DecidableEq, Repr

/-- Persisted records of one resource cache, keyed by derived key. -/
abbrev CacheContents := List (Key × Entry)

/-- Modelled from the spec: Cache::store evaluates StoreDecision and, if
eligible, builds and returns an unsaved Entry; returns none if
ineligible, and then the caller does not persist. -/
def store (salt : Nat) (req : Request) (resp : Response) (body : List Nat) : Option Entry :=
  if makeStoreDecision req resp = StoreDecision.Yes
  then some { key := makeCacheKey salt req, response := resp, body := body }
  else none

/-- The caller-side persistence step for an Entry returned by store. -/
def persist (st : CacheContents) (e : Entry) : CacheContents :=
  (e.key, e) :: st

/-- persist when store may have declined. -/
def persistIfStored (st : CacheContents) (e : Option Entry) : CacheContents :=
  match e with
  | some e => persist st e
  | none => st

/-- Modelled from the spec: Cache::retrieve completes synchronously with
none when RetrieveDecision is not Yes, otherwise looks up by the derived
key. -/
def retrieve (salt : Nat) (st : CacheContents) (req : Request) : Option Entry :=
  if makeRetrieveDecision req ≠ RetrieveDecision.Yes then none
  else
    match st.find? (fun r => r.1 = makeCacheKey salt req) with
    | some r => some r.2
    | none => none

/-- A plain cacheable GET request, used by concrete witnesses. -/
def sampleRequest : Request :=
  { method := "GET", url := "u", partitionKey := "p", isConditional := false,
    reloadIgnoringCache := false, hasRangeHeader := false, noStoreDirective := false }

/-- A plain cacheable response, used by concrete witnesses. -/
def sampleResponse : Response :=
  { isHTTPFamily := true, noStoreDirective := false, statusCodeCacheable := true,
    unlikelyToReuse := false, isStreamingMedia := false }

end NetworkCache

namespace CacheStorage

/-- Error kinds of the engine (spec section 7). -/
inductive CacheError where
  | NotFound
  | QuotaExceeded
  | Invalid
  | IOFailure
deriving DecidableEq, Repr

/-- Modelled from the spec: one origin partition — its visible named
caches as an ordered (name, identifier) list and its monotonically
non-decreasing update counter (CacheStorageEngineCaches is not under
src/, only the Engine header is). -/
structure PartitionState where
  caches : List (String × Nat)
  updateCounter : Nat
deriving DecidableEq, Repr

/-- Modelled from the spec and the Engine header: the engine state —
origin partitions, the root-scoped identifier generator
m_nextCacheIdentifier (a uint64_t in the header, held as a Nat that
openCache advances mod 2^64), the lock table m_cacheLocks, the set of
soft-deleted identifiers awaiting physical deletion, and the set of
identifiers with on-disk data. -/
structure EngineState where
  partitions : List (String × PartitionState)
  nextCacheIdentifier : Nat
  cacheLocks : List (Nat × Nat)
  pendingDelete : List Nat
  disk : List Nat
deriving DecidableEq, Repr

/-- The engine before any operation. -/
def initialEngine : EngineState :=
  { partitions := [], nextCacheIdentifier := 0, cacheLocks := [], pendingDelete := [],
    disk := [] }

/-- Partition of an origin; a never-accessed origin reads as the empty,
lazily-creatable partition. -/
def lookupPartition (s : EngineState) (o : String) : PartitionState :=
  match s.partitions.find? (fun p => p.1 = o) with
  | some p => p.2
  | none => { caches := [], updateCounter := 0 }

/-- Replace (or lazily create) the partition of an origin. -/
def setPartition (ps : List (String × PartitionState)) (o : String) (p : PartitionState) :
    List (String × PartitionState) :=
  setAssoc ps o p

/-- Reference count of an identifier in a lock table (absent reads 0). -/
def lockCountL (ls : List (Nat × Nat)) (id : Nat) : Nat :=
  match ls.find? (fun l => l.1 = id) with
  | some l => l.2
  | none => 0

/-- Set the reference count of an identifier in a lock table. -/
def setLockCountL (ls : List (Nat × Nat)) (id c : Nat) : List (Nat × Nat) :=
  setAssoc ls id c

/-- Reference count of an identifier (m_cacheLocks). -/
def lockCount (s : EngineState) (id : Nat) : Nat :=
  lockCountL s.cacheLocks id

/-- Modelled from the spec: Engine::open (its implementation file is not
under src/, but the allocator it calls is: nextCacheIdentifier returns
++m_nextCacheIdentifier on a uint64_t field, embedded as Nat with the
increment taken mod 2^64).  Returns the existing identifier if
(origin, name) already exists; otherwise allocates the next identifier,
creates the named cache with its on-disk data, and increments the
partition's update counter.  Named openCache because open is reserved
in Lean. -/
def openCache (s : EngineState) (o n : String) : Nat × EngineState :=
  let p := lookupPartition s o
  match p.caches.find? (fun c => c.1 = n) with
  | some c => (c.2, s)
  | none =>
    let id := (s.nextCacheIdentifier + 1) % 2 ^ 64
    (id,
      { s with
        nextCacheIdentifier := id,
        partitions := setPartition s.partitions o
          { caches := p.caches ++ [(n, id)], updateCounter := p.updateCounter + 1 },
        disk := id :: s.disk })

/-- Modelled from the spec: Engine::remove (its implementation file is
not under src/).  Fails with NotFound if no partition knows the
identifier; otherwise hides the cache from every partition listing and
increments that partition's update counter (soft delete), then deletes
the on-disk data only if the lock count is zero, deferring it to the
pending-delete set otherwise. -/
def removeCache (s : EngineState) (id : Nat) : Except CacheError EngineState :=
  if s.partitions.any (fun p => p.2.caches.any (fun c => c.2 = id)) then
    let parts := s.partitions.map (fun p =>
      if p.2.caches.any (fun c => c.2 = id) then
        (p.1, { caches := p.2.caches.filter (fun c => c.2 ≠ id),
                updateCounter := p.2.updateCounter + 1 })
      else p)
    if lockCount s id = 0 then
      Except.ok { s with partitions := parts, disk := s.disk.filter (fun j => j ≠ id) }
    else
      Except.ok { s with partitions := parts, pendingDelete := id :: s.pendingDelete }
  else Except.error CacheError.NotFound

/-- Modelled from the spec: Engine::retrieveCaches (its implementation
file is not under src/).  Returns the current listing only if the
partition's update counter has advanced past the caller's counter,
otherwise signals unchanged (none). -/
def retrieveCaches (s : EngineState) (o : String) (updateCounter : Nat) :
    Option (List (String × Nat)) :=
  let p := lookupPartition s o
  if updateCounter < p.updateCounter then some p.caches else none

/-- Modelled from the spec: Engine::lock — increment the identifier's
reference count. -/
def lock (s : EngineState) (id : Nat) : EngineState :=
  { s with cacheLocks := setLockCountL s.cacheLocks id (lockCount s id + 1) }

/-- Modelled from the spec: Engine::unlock — decrement the identifier's
reference count, saturating at zero; a decrement that reaches zero
completes the pending physical deletion of a soft-deleted cache. -/
def unlock (s : EngineState) (id : Nat) : EngineState :=
  match lockCount s id with
  | 0 => s
  | c + 1 =>
    let s1 := { s with cacheLocks := setLockCountL s.cacheLocks id c }
    if c = 0 ∧ s.pendingDelete.contains id then
      { s1 with
        pendingDelete := s1.pendingDelete.filter (fun j => j ≠ id),
        disk := s1.disk.filter (fun j => j ≠ id) }
    else s1

/-- Named-blob store used by writeFile/readFile/removeFile. -/
abbrev FileSystem := List (String × List Nat)

/-- Replace or create a named blob. -/
def setFile (fs : FileSystem) (n : String) (b : List Nat) : FileSystem :=
  setAssoc fs n b

/-- Modelled from the spec: Engine::writeFile (its implementation file
is not under src/).  The underlying storage primitive either performs
the whole write (ioOk) or fails it with IOFailure; a write is all or
nothing. -/
def writeFile (fs : FileSystem) (n : String) (b : List Nat) (ioOk : Bool) :
    FileSystem × Option CacheError :=
  if ioOk then (setFile fs n b, none) else (fs, some CacheError.IOFailure)

/-- Modelled from the spec: Engine::readFile (its implementation file is
not under src/).  Delivers the whole stored byte sequence, NotFound for
an unknown name, or IOFailure when the storage primitive fails. -/
def readFile (fs : FileSystem) (n : String) (ioOk : Bool) : Except CacheError (List Nat) :=
  if ioOk then
    match fs.find? (fun f => f.1 = n) with
    | some f => Except.ok f.2
    | none => Except.error CacheError.NotFound
  else Except.error CacheError.IOFailure

/-- Modelled from the spec: Engine::removeFile. -/
def removeFile (fs : FileSystem) (n : String) : FileSystem :=
  fs.filter (fun f => f.1 ≠ n)

/-- All cache identifiers an engine state mentions: in partition
listings, on disk, or pending deletion. -/
def allIdentifiers (s : EngineState) : List Nat :=
  (s.partitions.map (fun p => p.2.caches.map (fun c => c.2))).flatten
    ++ s.disk ++ s.pendingDelete

/-- Invariant: every identifier the state mentions was drawn from the
generator, so it is bounded by m_nextCacheIdentifier. -/
def idsBounded (s : EngineState) : Prop :=
  ∀ i ∈ allIdentifiers s, i ≤ s.nextCacheIdentifier

instance (s : EngineState) : Decidable (idsBounded s) := by
  unfold idsBounded; infer_instance

/-- Engine state at the allocator wraparound point: the uint64
generator sits at 2^64 - 1 and that identifier is live in a partition
listing and on disk. -/
def wrapState : EngineState :=
  { partitions := [("a", { caches := [("x", 2 ^ 64 - 1)], updateCounter := 1 })],
    nextCacheIdentifier := 2 ^ 64 - 1, cacheLocks := [], pendingDelete := [],
    disk := [2 ^ 64 - 1] }

end CacheStorage

end WK


section JSONSanity

open WK.JSONImpl

example : parseJSON [0x74, 0x72, 0x75, 0x65] = some (JValue.bool true) := by rfl

example : parseJSON [0x20, 0x6E, 0x75, 0x6C, 0x6C, 0x20] = some JValue.null := by rfl

example :
    parseJSON [0x5B, 0x6E, 0x75, 0x6C, 0x6C, 0x2C, 0x20, 0x74, 0x72, 0x75, 0x65, 0x5D]
      = some (JValue.arr [JValue.null, JValue.bool true]) := by rfl

example : parseJSON [0x31, 0x32] = some (JValue.num [0x31, 0x32]) := by rfl

example : parseJSON [0x31, 0x20, 0x78] = none := by rfl

example : parseJSON [0x6E, 0x75, 0x6C, 0x78] = some JValue.null := by rfl

example :
    parseJSON [0x7B, 0x22, 0x61, 0x22, 0x3A, 0x31, 0x7D]
      = some (JValue.obj [([0x61], JValue.num [0x31])]) := by with_unfolding_all rfl

example : parseJSON [0x5B, 0x31, 0x2C, 0x5D] = none := by rfl

end JSONSanity

/-! Helper lemmas about the association-list primitives. -/

namespace WK

theorem find?_setAssoc_self {α β : Type} [DecidableEq α] (k : α) (v : β) :
    ∀ ls : List (α × β), (setAssoc ls k v).find? (fun q => q.1 = k) = some (k, v) := by
  intro ls
  induction ls with
  | nil => simp [setAssoc]
  | cons q qs ih =>
    by_cases h : q.1 = k
    · simp [setAssoc, h]
    · simp [setAssoc, h, ih]

theorem mem_setAssoc {α β : Type} [DecidableEq α] (k : α) (v : β) :
    ∀ (ls : List (α × β)) (q : α × β), q ∈ setAssoc ls k v → q ∈ ls ∨ q = (k, v) := by
  intro ls
  induction ls with
  | nil => intro q hq; simp [setAssoc] at hq; right; exact hq
  | cons p ps ih =>
    intro q hq
    by_cases h : p.1 = k
    · simp only [setAssoc, if_pos h, List.mem_cons] at hq
      rcases hq with h1 | h1
      · right; exact h1
      · left; exact List.mem_cons_of_mem _ h1
    · simp only [setAssoc, if_neg h, List.mem_cons] at hq
      rcases hq with h1 | h1
      · left; exact h1 ▸ List.mem_cons_self _ _
      · rcases ih q h1 with h2 | h2
        · left; exact List.mem_cons_of_mem _ h2
        · right; exact h2

namespace CacheStorage

theorem lockCountL_setLockCountL (ls : List (Nat × Nat)) (id c : Nat) :
    lockCountL (setLockCountL ls id c) id = c := by
  unfold lockCountL setLockCountL
  rw [find?_setAssoc_self]

theorem lookupPartition_setPartition (s : EngineState) (o : String) (p : PartitionState)
    (ps : List (String × PartitionState)) :
    lookupPartition { s with partitions := setPartition ps o p } o = p := by
  unfold lookupPartition setPartition
  simp only []
  rw [find?_setAssoc_self]

end CacheStorage

end WK

namespace WK

open NetworkCache

/-- Claim C7: retrieveCaches(session, origin, u) returns the current
cache listing exactly when the partition's update counter is strictly
greater than u, and signals unchanged (none) otherwise. -/
theorem retrieveCaches_counter_gate (s : CacheStorage.EngineState) (o : String) (u : Nat) :
    (u < (CacheStorage.lookupPartition s o).updateCounter →
      CacheStorage.retrieveCaches s o u = some (CacheStorage.lookupPartition s o).caches)
    ∧ ((CacheStorage.lookupPartition s o).updateCounter ≤ u →
      CacheStorage.retrieveCaches s o u = none)
    ∧ (∀ l, CacheStorage.retrieveCaches s o u = some l →
        l = (CacheStorage.lookupPartition s o).caches
          ∧ u < (CacheStorage.lookupPartition s o).updateCounter) := by
  refine ⟨fun h => ?_, fun h => ?_, fun l hl => ?_⟩
  · simp [CacheStorage.retrieveCaches, h]
  · simp [CacheStorage.retrieveCaches, Nat.not_lt.mpr h]
  · by_cases h : u < (CacheStorage.lookupPartition s o).updateCounter
    · simp only [CacheStorage.retrieveCaches, if_pos h] at hl
      exact ⟨(Option.some.inj hl).symm, h⟩
    · simp [CacheStorage.retrieveCaches, if_neg h] at hl

/-- Claim C7 witness: after one open, the partition counter is 1, so a
caller-side counter of 0 receives the listing. -/
theorem retrieveCaches_counter_gate_witness :
    CacheStorage.retrieveCaches (CacheStorage.openCache CacheStorage.initialEngine "a" "x").2 "a" 0
      = some (CacheStorage.lookupPartition
          (CacheStorage.openCache CacheStorage.initialEngine "a" "x").2 "a").caches :=
  (retrieveCaches_counter_gate (CacheStorage.openCache CacheStorage.initialEngine "a" "x").2
    "a" 0).1 (by decide)

/-- Claim C8: a successful writeFile followed by readFile on the same
name delivers exactly the written bytes, or fails with the well-defined
IOFailure when the storage primitive fails the read; it can never
deliver truncated or different bytes. -/
theorem writeFile_readFile_exact (fs : CacheStorage.FileSystem) (n : String)
    (b : List Nat) (io1 : Bool) (fs2 : CacheStorage.FileSystem)
    (hw : CacheStorage.writeFile fs n b io1 = (fs2, none)) :
    ∀ io2, CacheStorage.readFile fs2 n io2
      = if io2 then Except.ok b else Except.error CacheStorage.CacheError.IOFailure := by
  intro io2
  unfold CacheStorage.writeFile at hw
  cases io1 with
  | false => simp at hw
  | true =>
    simp only [if_pos rfl] at hw
    have hfs : fs2 = CacheStorage.setFile fs n b := by
      have := congrArg Prod.fst hw
      simpa using this.symm
    subst hfs
    cases io2 with
    | false => simp [CacheStorage.readFile]
    | true =>
      unfold CacheStorage.readFile CacheStorage.setFile
      rw [find?_setAssoc_self]

/-- Claim C8 witness at a concrete file store. -/
theorem writeFile_readFile_exact_witness :
    CacheStorage.readFile (CacheStorage.setFile [] "f" [0x7]) "f" true = Except.ok [0x7] := by
  have h := writeFile_readFile_exact [] "f" [0x7] true (CacheStorage.setFile [] "f" [0x7])
    rfl true
  simpa using h

/-- Claim C4: unlock saturates at zero (the Nat count models the
non-negative reference count, and unlock on zero leaves the state
untouched), lock increments, and an unlock that brings the count from
one to zero completes the pending physical deletion of a soft-deleted
cache. -/
theorem lock_unlock_saturating :
    (∀ (s : CacheStorage.EngineState) (id : Nat),
      CacheStorage.lockCount (CacheStorage.unlock s id) id = CacheStorage.lockCount s id - 1)
    ∧ (∀ (s : CacheStorage.EngineState) (id : Nat),
      CacheStorage.lockCount s id = 0 → CacheStorage.unlock s id = s)
    ∧ (∀ (s : CacheStorage.EngineState) (id : Nat),
      CacheStorage.lockCount (CacheStorage.lock s id) id = CacheStorage.lockCount s id + 1)
    ∧ (∀ (s : CacheStorage.EngineState) (id : Nat),
      CacheStorage.lockCount s id = 1 → s.pendingDelete.contains id = true →
        id ∉ (CacheStorage.unlock s id).disk
          ∧ id ∉ (CacheStorage.unlock s id).pendingDelete) := by
  refine ⟨fun s id => ?_, fun s id h => ?_, fun s id => ?_, fun s id h1 h2 => ?_⟩
  · cases hc : CacheStorage.lockCount s id with
    | zero =>
      unfold CacheStorage.unlock
      rw [hc]
      simp [hc]
    | succ c =>
      unfold CacheStorage.unlock
      rw [hc]
      by_cases hp : c = 0 ∧ s.pendingDelete.contains id = true
      · simp only [if_pos hp, CacheStorage.lockCount]
        rw [CacheStorage.lockCountL_setLockCountL]
        omega
      · simp only [if_neg hp, CacheStorage.lockCount]
        rw [CacheStorage.lockCountL_setLockCountL]
        omega
  · unfold CacheStorage.unlock
    rw [h]
  · unfold CacheStorage.lock CacheStorage.lockCount
    simp only []
    rw [CacheStorage.lockCountL_setLockCountL]
  · unfold CacheStorage.unlock
    rw [h1]
    have hmem : id ∈ s.pendingDelete := by simpa using h2
    constructor <;> simp [hmem, List.mem_filter]

/-- Claim C4 witness: a soft-deleted cache with one outstanding lock is
physically deleted by the unlock that drops the count to zero. -/
theorem lock_unlock_saturating_witness :
    5 ∉ (CacheStorage.unlock
      { partitions := [], nextCacheIdentifier := 5, cacheLocks := [(5, 1)],
        pendingDelete := [5], disk := [5] } 5).disk :=
  (lock_unlock_saturating.2.2.2
    { partitions := [], nextCacheIdentifier := 5, cacheLocks := [(5, 1)],
      pendingDelete := [5], disk := [5] } 5 (by decide) (by decide)).1

end WK

namespace WK

open NetworkCache

/-- Claim C1: starting from contents with no record under the request's
derived key, running store, persisting its entry when it produces one,
and then running retrieve delivers the stored entry exactly when
StoreDecision and RetrieveDecision are both Yes, and none in every
other case. -/
theorem store_retrieve_roundtrip (salt : Nat) (st : CacheContents) (req : Request)
    (resp : Response) (body : List Nat)
    (hmiss : st.find? (fun r => r.1 = makeCacheKey salt req) = none) :
    retrieve salt (persistIfStored st (store salt req resp body)) req
      = if makeStoreDecision req resp = StoreDecision.Yes
            ∧ makeRetrieveDecision req = RetrieveDecision.Yes
        then store salt req resp body
        else none := by
  by_cases hs : makeStoreDecision req resp = StoreDecision.Yes
  · by_cases hr : makeRetrieveDecision req = RetrieveDecision.Yes
    · simp [store, persistIfStored, persist, retrieve, hs, hr]
    · simp [store, persistIfStored, persist, retrieve, hs, hr]
  · by_cases hr : makeRetrieveDecision req = RetrieveDecision.Yes
    · simp [store, persistIfStored, retrieve, hs, hr, hmiss]
    · simp [store, persistIfStored, retrieve, hs, hr]

/-- Claim C1 witness: a cacheable GET stored into the empty cache is
returned by the following retrieve. -/
theorem store_retrieve_roundtrip_witness :
    retrieve 0 (persistIfStored [] (store 0 sampleRequest sampleResponse [0x1])) sampleRequest
      = if makeStoreDecision sampleRequest sampleResponse = StoreDecision.Yes
            ∧ makeRetrieveDecision sampleRequest = RetrieveDecision.Yes
        then store 0 sampleRequest sampleResponse [0x1]
        else none :=
  store_retrieve_roundtrip 0 [] sampleRequest sampleResponse [0x1] rfl

/-- Claim C6: the StoreDecision policy yields Yes unless one of the six
exclusions (protocol, method, no-store directive on request or
response, status code, low-likelihood-of-reuse heuristic, streaming
media) holds; evaluation is left-to-right with the first matching row
of the exclusion table winning, the outcomes are exactly the table's
enumerable reasons, and the unused NoDueToAttachmentResponse reason is
never produced. -/
theorem storeDecision_first_match (req : Request) (resp : Response) :
    makeStoreDecision req resp =
      (match (storeExclusionTable req resp).find? (fun e => e.1) with
       | some e => e.2
       | none => StoreDecision.Yes)
    ∧ (makeStoreDecision req resp = StoreDecision.Yes ↔
        ∀ e ∈ storeExclusionTable req resp, e.1 = false)
    ∧ makeStoreDecision req resp ≠ StoreDecision.NoDueToAttachmentResponse := by
  rcases req with ⟨m, u, pk, rc1, rc2, rc3, rns⟩
  rcases resp with ⟨p1, p2, p3, p4, p5⟩
  by_cases hm : m = "GET" <;>
    cases rns <;> cases p1 <;> cases p2 <;> cases p3 <;> cases p4 <;> cases p5 <;>
      simp [makeStoreDecision, storeExclusionTable, hm]

/-- Claim C6 witness: the cacheable sample pair matches no exclusion
row and is stored. -/
theorem storeDecision_first_match_witness :
    makeStoreDecision sampleRequest sampleResponse =
      (match (storeExclusionTable sampleRequest sampleResponse).find? (fun e => e.1) with
       | some e => e.2
       | none => StoreDecision.Yes)
    ∧ (makeStoreDecision sampleRequest sampleResponse = StoreDecision.Yes ↔
        ∀ e ∈ storeExclusionTable sampleRequest sampleResponse, e.1 = false)
    ∧ makeStoreDecision sampleRequest sampleResponse
        ≠ StoreDecision.NoDueToAttachmentResponse :=
  storeDecision_first_match sampleRequest sampleResponse

end WK

namespace WK

namespace CacheStorage

theorem find?_setPartition (ps : List (String × PartitionState)) (o : String)
    (p : PartitionState) :
    (setPartition ps o p).find? (fun q => q.1 = o) = some (o, p) := by
  unfold setPartition
  exact find?_setAssoc_self o p ps

theorem openCache_found (s : EngineState) (o n : String) (c : String × Nat)
    (hf : (lookupPartition s o).caches.find? (fun q => q.1 = n) = some c) :
    openCache s o n = (c.2, s) := by
  simp only [openCache, hf]

theorem openCache_new (s : EngineState) (o n : String)
    (hf : (lookupPartition s o).caches.find? (fun q => q.1 = n) = none) :
    openCache s o n
      = ((s.nextCacheIdentifier + 1) % 2 ^ 64,
         { s with
           nextCacheIdentifier := (s.nextCacheIdentifier + 1) % 2 ^ 64,
           partitions := setPartition s.partitions o
             { caches := (lookupPartition s o).caches
                 ++ [(n, (s.nextCacheIdentifier + 1) % 2 ^ 64)],
               updateCounter := (lookupPartition s o).updateCounter + 1 },
           disk := ((s.nextCacheIdentifier + 1) % 2 ^ 64) :: s.disk }) := by
  simp only [openCache, hf]

theorem lookupPartition_record (parts : List (String × PartitionState))
    (next : Nat) (locks : List (Nat × Nat)) (pend disk : List Nat) (o : String)
    (p : PartitionState) (hps : parts.find? (fun q => q.1 = o) = some (o, p)) :
    lookupPartition
      { partitions := parts, nextCacheIdentifier := next, cacheLocks := locks,
        pendingDelete := pend, disk := disk } o = p := by
  simp only [lookupPartition, hps]

theorem retrieveCaches_some_eq (s : EngineState) (o : String) (u : Nat)
    (l : List (String × Nat)) (hl : retrieveCaches s o u = some l) :
    l = (lookupPartition s o).caches := by
  by_cases h : u < (lookupPartition s o).updateCounter
  · simp only [retrieveCaches, if_pos h] at hl
    exact (Option.some.inj hl).symm
  · simp [retrieveCaches, if_neg h] at hl

end CacheStorage

open CacheStorage

/-- Claim C2: open with identical (origin, name) arguments is
idempotent — the second call returns the same identifier, leaves the
engine state unchanged (creates no new named cache), and the cache
appears exactly once in the partition listing returned by
retrieveCaches. -/
theorem openCache_idempotent (s : EngineState) (o n : String)
    (hwf : (lookupPartition s o).caches.countP (fun c => c.1 = n) ≤ 1) :
    (openCache (openCache s o n).2 o n).1 = (openCache s o n).1
    ∧ (openCache (openCache s o n).2 o n).2 = (openCache s o n).2
    ∧ (lookupPartition (openCache s o n).2 o).caches.countP (fun c => c.1 = n) = 1
    ∧ (∀ u l, retrieveCaches (openCache s o n).2 o u = some l →
        l.countP (fun c => c.1 = n) = 1) := by
  cases hf : (lookupPartition s o).caches.find? (fun q => q.1 = n) with
  | some c =>
    have hopen := openCache_found s o n c hf
    have hsecond : openCache (openCache s o n).2 o n = (c.2, s) := by
      rw [hopen]
      exact hopen
    have hcount : (lookupPartition s o).caches.countP (fun q => q.1 = n) = 1 := by
      have hmem := List.mem_of_find?_eq_some hf
      have hpc := List.find?_some hf
      have hpos : 0 < (lookupPartition s o).caches.countP (fun q => q.1 = n) :=
        List.countP_pos_iff.mpr ⟨c, hmem, hpc⟩
      omega
    refine ⟨?_, ?_, ?_, ?_⟩
    · rw [hsecond, hopen]
    · rw [hsecond, hopen]
    · rw [hopen]
      exact hcount
    · intro u l hl
      rw [hopen] at hl
      replace hl : retrieveCaches s o u = some l := hl
      rw [retrieveCaches_some_eq s o u l hl]
      exact hcount
  | none =>
    have hzero : (lookupPartition s o).caches.countP (fun q => q.1 = n) = 0 :=
      List.countP_eq_zero.mpr (List.find?_eq_none.mp hf)
    have hopen := openCache_new s o n hf
    have hlp1 : lookupPartition (openCache s o n).2 o
        = { caches := (lookupPartition s o).caches
              ++ [(n, (s.nextCacheIdentifier + 1) % 2 ^ 64)],
            updateCounter := (lookupPartition s o).updateCounter + 1 } := by
      rw [hopen]
      exact lookupPartition_record _ _ _ _ _ o _ (find?_setPartition s.partitions o _)
    have hcount1 : (lookupPartition (openCache s o n).2 o).caches.countP
        (fun q => q.1 = n) = 1 := by
      rw [hlp1]
      simp only [List.countP_append, hzero]
      simp [List.countP, List.countP.go]
    have hfind1 : (lookupPartition (openCache s o n).2 o).caches.find? (fun q => q.1 = n)
        = some (n, (s.nextCacheIdentifier + 1) % 2 ^ 64) := by
      rw [hlp1]
      simp only [List.find?_append, hf]
      simp [List.find?]
    have hsecond := openCache_found (openCache s o n).2 o n
      (n, (s.nextCacheIdentifier + 1) % 2 ^ 64) hfind1
    refine ⟨?_, ?_, ?_, ?_⟩
    · rw [hsecond, hopen]
    · rw [hsecond]
    · exact hcount1
    · intro u l hl
      rw [retrieveCaches_some_eq _ o u l hl]
      exact hcount1

/-- Claim C2 witness: opening the same name twice on the fresh engine. -/
theorem openCache_idempotent_witness :
    (openCache (openCache initialEngine "a" "x").2 "a" "x").1
      = (openCache initialEngine "a" "x").1
    ∧ (lookupPartition (openCache initialEngine "a" "x").2 "a").caches.countP
        (fun c => c.1 = "x") = 1 :=
  have h := openCache_idempotent initialEngine "a" "x" (by decide)
  ⟨h.1, h.2.2.1⟩

end WK

namespace WK

open CacheStorage

/-- Claim C3: with a positive lock count, remove soft-deletes the cache
(the identifier disappears from every retrieveCaches listing as soon as
remove returns) while the on-disk data survives; the physical deletion
happens exactly at the unlock that drops the count to zero, and not at
an unlock that leaves the count positive. -/
theorem removeCache_soft_delete (s : EngineState) (id : Nat) (s2 : EngineState)
    (hlock : 0 < lockCount s id)
    (hdisk : id ∈ s.disk)
    (hrm : removeCache s id = Except.ok s2) :
    (∀ o u l, retrieveCaches s2 o u = some l → ∀ nm, (nm, id) ∉ l)
    ∧ id ∈ s2.disk
    ∧ (lockCount s2 id = 1 → id ∉ (CacheStorage.unlock s2 id).disk)
    ∧ (1 < lockCount s2 id → id ∈ (CacheStorage.unlock s2 id).disk) := by
  by_cases hany : s.partitions.any (fun p => p.2.caches.any (fun c => c.2 = id))
  case neg =>
    unfold removeCache at hrm
    rw [if_neg hany] at hrm
    exact absurd hrm (by simp)
  case pos =>
    have hlz : ¬ lockCount s id = 0 := by omega
    have hs2 : s2 =
        { s with
          partitions := s.partitions.map (fun p =>
            if p.2.caches.any (fun c => c.2 = id) then
              (p.1, { caches := p.2.caches.filter (fun c => c.2 ≠ id),
                      updateCounter := p.2.updateCounter + 1 })
            else p),
          pendingDelete := id :: s.pendingDelete } := by
      unfold removeCache at hrm
      rw [if_pos hany, if_neg hlz] at hrm
      exact (Except.ok.inj hrm).symm
    have hpartmem : ∀ q ∈ s2.partitions, ∀ nm, (nm, id) ∉ q.2.caches := by
      intro q hq nm hmem
      rw [hs2] at hq
      simp only [List.mem_map] at hq
      obtain ⟨p, hp, hpq⟩ := hq
      by_cases hcp : p.2.caches.any (fun c => c.2 = id)
      · rw [if_pos hcp] at hpq
        rw [← hpq] at hmem
        simp only [List.mem_filter] at hmem
        exact absurd hmem.2 (by simp)
      · rw [if_neg hcp] at hpq
        rw [← hpq] at hmem
        rw [List.any_eq_true] at hcp
        exact hcp ⟨(nm, id), hmem, by simp⟩
    refine ⟨?_, ?_, ?_, ?_⟩
    · intro o u l hl nm hmem
      rw [retrieveCaches_some_eq s2 o u l hl] at hmem
      unfold lookupPartition at hmem
      cases hq : s2.partitions.find? (fun p => p.1 = o) with
      | none =>
        rw [hq] at hmem
        simp at hmem
      | some q =>
        rw [hq] at hmem
        exact hpartmem q (List.mem_of_find?_eq_some hq) nm hmem
    · rw [hs2]
      exact hdisk
    · intro h1
      unfold CacheStorage.unlock
      rw [h1]
      have hpend : id ∈ s2.pendingDelete := by
        rw [hs2]
        simp
      simp [hpend, List.mem_filter]
    · intro h1
      unfold CacheStorage.unlock
      cases hc : lockCount s2 id with
      | zero => omega
      | succ c =>
        have hcz : ¬ (c = 0 ∧ s2.pendingDelete.contains id = true) := by
          intro hcontra
          rw [hc] at h1
          exact absurd hcontra.1 (by omega)
        simp only [if_neg hcz]
        rw [hs2]
        exact hdisk

/-- Claim C3 witness: open, lock, remove on the fresh engine; the data
survives the remove and disappears at the final unlock. -/
theorem removeCache_soft_delete_witness :
    1 ∈
      ({ partitions := [("a", { caches := [], updateCounter := 2 })],
         nextCacheIdentifier := 1, cacheLocks := [(1, 1)], pendingDelete := [1],
         disk := [1] } : EngineState).disk
    ∧ 1 ∉ (CacheStorage.unlock
        { partitions := [("a", { caches := [], updateCounter := 2 })],
          nextCacheIdentifier := 1, cacheLocks := [(1, 1)], pendingDelete := [1],
          disk := [1] } 1).disk :=
  have h := removeCache_soft_delete
    (CacheStorage.lock (openCache initialEngine "a" "x").2 1) 1
    { partitions := [("a", { caches := [], updateCounter := 2 })],
      nextCacheIdentifier := 1, cacheLocks := [(1, 1)], pendingDelete := [1], disk := [1] }
    (by decide) (by decide) (by rfl)
  ⟨h.2.1, h.2.2.1 (by decide)⟩

end WK

namespace WK

namespace CacheStorage

theorem allIdentifiers_mem (s : EngineState) (i : Nat) :
    i ∈ allIdentifiers s ↔
      ((∃ q ∈ s.partitions, ∃ c ∈ q.2.caches, c.2 = i)
        ∨ i ∈ s.disk ∨ i ∈ s.pendingDelete) := by
  unfold allIdentifiers
  simp only [List.mem_append, List.mem_flatten, List.mem_map]
  constructor
  · rintro ((⟨l, ⟨q, hq, hql⟩, hil⟩ | h) | h)
    · subst hql
      obtain ⟨c, hc, hci⟩ := List.mem_map.mp hil
      exact Or.inl ⟨q, hq, c, hc, hci⟩
    · exact Or.inr (Or.inl h)
    · exact Or.inr (Or.inr h)
  · rintro (⟨q, hq, c, hc, hci⟩ | h | h)
    · exact Or.inl (Or.inl ⟨q.2.caches.map (fun c => c.2), ⟨q, hq, rfl⟩,
        List.mem_map.mpr ⟨c, hc, hci⟩⟩)
    · exact Or.inl (Or.inr h)
    · exact Or.inr h

theorem openCache_new_fst (s : EngineState) (o n : String)
    (hf : (lookupPartition s o).caches.find? (fun q => q.1 = n) = none) :
    (openCache s o n).1 = (s.nextCacheIdentifier + 1) % 2 ^ 64 := by
  rw [openCache_new s o n hf]

theorem openCache_new_snd (s : EngineState) (o n : String)
    (hf : (lookupPartition s o).caches.find? (fun q => q.1 = n) = none) :
    (openCache s o n).2
      = { s with
          nextCacheIdentifier := (s.nextCacheIdentifier + 1) % 2 ^ 64,
          partitions := setPartition s.partitions o
            { caches := (lookupPartition s o).caches
                ++ [(n, (s.nextCacheIdentifier + 1) % 2 ^ 64)],
              updateCounter := (lookupPartition s o).updateCounter + 1 },
          disk := ((s.nextCacheIdentifier + 1) % 2 ^ 64) :: s.disk } := by
  rw [openCache_new s o n hf]

theorem lookupPartition_caches_mem (s : EngineState) (o : String) (c : String × Nat)
    (hc : c ∈ (lookupPartition s o).caches) : ∃ q ∈ s.partitions, c ∈ q.2.caches := by
  unfold lookupPartition at hc
  cases hq : s.partitions.find? (fun p => p.1 = o) with
  | none =>
    rw [hq] at hc
    simp at hc
  | some q =>
    rw [hq] at hc
    exact ⟨q, List.mem_of_find?_eq_some hq, hc⟩

end CacheStorage

open CacheStorage

/-- Claim C5, amended: the identifier generator is a uint64 and wraps
at 2^64 (the counterexample theorem exhibits the wraparound state, at
which the freshly allocated identifier 0 is not greater than the live
identifier 2^64 - 1), so the claimed strict growth holds below the
wraparound: whenever the generator's successor is still below 2^64,
open leaves the generator at least where it was, keeps every
identifier in the state bounded by the generator, and a newly
allocated identifier is strictly greater than every identifier the
state previously mentioned — so no identifier is reused before 2^64
allocations; remove preserves the bound unconditionally. -/
theorem nextCacheIdentifier_monotone :
    (∀ (s : EngineState) (o n : String), s.nextCacheIdentifier + 1 < 2 ^ 64 →
      s.nextCacheIdentifier ≤ (openCache s o n).2.nextCacheIdentifier)
    ∧ (∀ (s : EngineState) (o n : String), s.nextCacheIdentifier + 1 < 2 ^ 64 →
        idsBounded s → idsBounded (openCache s o n).2)
    ∧ (∀ (s : EngineState) (o n : String), s.nextCacheIdentifier + 1 < 2 ^ 64 →
        idsBounded s →
        (lookupPartition s o).caches.find? (fun q => q.1 = n) = none →
        ∀ j ∈ allIdentifiers s, j < (openCache s o n).1)
    ∧ (∀ (s : EngineState) (id : Nat) (s2 : EngineState), idsBounded s →
        removeCache s id = Except.ok s2 → idsBounded s2) := by
  refine ⟨?_, ?_, ?_, ?_⟩
  · intro s o n hw
    cases hf : (lookupPartition s o).caches.find? (fun q => q.1 = n) with
    | some c => rw [openCache_found s o n c hf]
    | none =>
      rw [openCache_new_snd s o n hf, Nat.mod_eq_of_lt hw]
      exact Nat.le_succ _
  · intro s o n hw hb
    cases hf : (lookupPartition s o).caches.find? (fun q => q.1 = n) with
    | some c =>
      rw [openCache_found s o n c hf]
      exact hb
    | none =>
      rw [openCache_new_snd s o n hf, Nat.mod_eq_of_lt hw]
      intro i hi
      rw [allIdentifiers_mem] at hi
      simp only [] at hi
      have hbound : ∀ j, j ∈ allIdentifiers s → j ≤ s.nextCacheIdentifier := hb
      rcases hi with ⟨q, hq, c, hc, hci⟩ | hdisk | hpend
      · rcases mem_setAssoc o _ s.partitions q hq with hq1 | hq1
        · have : i ∈ allIdentifiers s :=
            (allIdentifiers_mem s i).mpr (Or.inl ⟨q, hq1, c, hc, hci⟩)
          exact Nat.le_succ_of_le (hbound i this)
        · subst hq1
          simp only [List.mem_append, List.mem_singleton] at hc
          rcases hc with hc | hc
          · obtain ⟨q2, hq2, hcq2⟩ := lookupPartition_caches_mem s o c hc
            have : i ∈ allIdentifiers s :=
              (allIdentifiers_mem s i).mpr (Or.inl ⟨q2, hq2, c, hcq2, hci⟩)
            exact Nat.le_succ_of_le (hbound i this)
          · subst hc
            simp at hci
            show i ≤ s.nextCacheIdentifier + 1
            omega
      · simp only [List.mem_cons] at hdisk
        rcases hdisk with h | h
        · show i ≤ s.nextCacheIdentifier + 1
          omega
        · have : i ∈ allIdentifiers s := (allIdentifiers_mem s i).mpr (Or.inr (Or.inl h))
          exact Nat.le_succ_of_le (hbound i this)
      · have : i ∈ allIdentifiers s := (allIdentifiers_mem s i).mpr (Or.inr (Or.inr hpend))
        exact Nat.le_succ_of_le (hbound i this)
  · intro s o n hw hb hf j hj
    rw [openCache_new_fst s o n hf, Nat.mod_eq_of_lt hw]
    have := hb j hj
    omega
  · intro s id s2 hb hrm
    by_cases hany : s.partitions.any (fun p => p.2.caches.any (fun c => c.2 = id))
    case neg =>
      unfold removeCache at hrm
      rw [if_neg hany] at hrm
      exact absurd hrm (by simp)
    case pos =>
      have hid : id ≤ s.nextCacheIdentifier := by
        rw [List.any_eq_true] at hany
        obtain ⟨q, hq, hqc⟩ := hany
        rw [List.any_eq_true] at hqc
        obtain ⟨c, hc, hci⟩ := hqc
        exact hb id ((allIdentifiers_mem s id).mpr
          (Or.inl ⟨q, hq, c, hc, by simpa using hci⟩))
      have hparts : ∀ q' ∈ s.partitions.map (fun p =>
          if p.2.caches.any (fun c => c.2 = id) then
            (p.1, { caches := p.2.caches.filter (fun c => c.2 ≠ id),
                    updateCounter := p.2.updateCounter + 1 })
          else p), ∀ c ∈ q'.2.caches, ∃ q ∈ s.partitions, c ∈ q.2.caches := by
        intro q' hq' c hc
        obtain ⟨q, hq, hqq'⟩ := List.mem_map.mp hq'
        by_cases hcp : q.2.caches.any (fun c => c.2 = id)
        · rw [if_pos hcp] at hqq'
          rw [← hqq'] at hc
          simp only [List.mem_filter] at hc
          exact ⟨q, hq, hc.1⟩
        · rw [if_neg hcp] at hqq'
          rw [← hqq'] at hc
          exact ⟨q, hq, hc⟩
      unfold removeCache at hrm
      rw [if_pos hany] at hrm
      by_cases hlz : lockCount s id = 0
      · rw [if_pos hlz] at hrm
        have hs2 := (Except.ok.inj hrm).symm
        subst hs2
        intro i hi
        rw [allIdentifiers_mem] at hi
        simp only [] at hi
        rcases hi with ⟨q', hq', c, hc, hci⟩ | hdisk | hpend
        · obtain ⟨q, hq, hcq⟩ := hparts q' hq' c hc
          exact hb i ((allIdentifiers_mem s i).mpr (Or.inl ⟨q, hq, c, hcq, hci⟩))
        · rw [List.mem_filter] at hdisk
          exact hb i ((allIdentifiers_mem s i).mpr (Or.inr (Or.inl hdisk.1)))
        · exact hb i ((allIdentifiers_mem s i).mpr (Or.inr (Or.inr hpend)))
      · rw [if_neg hlz] at hrm
        have hs2 := (Except.ok.inj hrm).symm
        subst hs2
        intro i hi
        rw [allIdentifiers_mem] at hi
        simp only [] at hi
        rcases hi with ⟨q', hq', c, hc, hci⟩ | hdisk | hpend
        · obtain ⟨q, hq, hcq⟩ := hparts q' hq' c hc
          exact hb i ((allIdentifiers_mem s i).mpr (Or.inl ⟨q, hq, c, hcq, hci⟩))
        · exact hb i ((allIdentifiers_mem s i).mpr (Or.inr (Or.inl hdisk)))
        · simp only [List.mem_cons] at hpend
          rcases hpend with h | h
          · subst h
            exact hid
          · exact hb i ((allIdentifiers_mem s i).mpr (Or.inr (Or.inr h)))

/-- Claim C5 witness: far below the wraparound, the identifier
allocated by a second open is strictly greater than the one identifier
already in the state. -/
theorem nextCacheIdentifier_monotone_witness :
    1 < (openCache (openCache initialEngine "a" "x").2 "a" "y").1 :=
  nextCacheIdentifier_monotone.2.2.1 (openCache initialEngine "a" "x").2 "a" "y"
    (by decide) (by decide) (by decide) 1 (by decide)

/-- Claim C5 counterexample: at the wraparound state — generator at
2^64 - 1, that identifier live, the new name fresh, all identifiers
bounded by the generator — open allocates identifier 0, which is not
strictly greater than the previously allocated 2^64 - 1, refuting the
claim as stated. -/
theorem nextCacheIdentifier_wrap_counterexample :
    idsBounded wrapState
    ∧ (lookupPartition wrapState "a").caches.find? (fun q => q.1 = "y") = none
    ∧ (2 ^ 64 - 1) ∈ allIdentifiers wrapState
    ∧ (openCache wrapState "a" "y").1 = 0
    ∧ ¬ (2 ^ 64 - 1 < (openCache wrapState "a" "y").1) :=
  ⟨by decide, by decide, by decide, by decide, by decide⟩

end WK

namespace WK

open JSONImpl

/-- Claim C9: parseJSON accepts only one JSON value possibly surrounded
by whitespace — whenever the builder finds a first complete value, the
parse succeeds on it when every remaining character is space or
newline, and returns none (no output assigned) as soon as any trailing
character is not. -/
theorem parseJSON_whole_input_only (chars : List Nat) (v : JValue) (rest : List Nat)
    (h : buildValue (jsonFuel chars) chars 0 = some (v, rest)) :
    (rest.all isSpaceOrNewline = true → parseJSON chars = some v)
    ∧ (rest.all isSpaceOrNewline = false → parseJSON chars = none) := by
  unfold parseJSON
  rw [h]
  constructor <;> intro hall <;> simp [hall]

/-- Claim C9 witness: the input 1-space-x parses a first value but is
rejected for the trailing x. -/
theorem parseJSON_whole_input_only_witness :
    parseJSON [0x31, 0x20, 0x78] = none :=
  (parseJSON_whole_input_only [0x31, 0x20, 0x78] (JValue.num [0x31]) [0x20, 0x78]
    (by rfl)).2 (by rfl)

end WK

namespace WK

namespace JSONImpl

theorem parseToken_lbrack (l : List Nat) :
    parseToken (0x5B :: l) = (Token.ArrayBegin, 0x5B :: l, l) := by rfl

theorem parseToken_lbrace (l : List Nat) :
    parseToken (0x7B :: l) = (Token.ObjectBegin, 0x7B :: l, l) := by rfl

theorem parseStringTokenAux_key (l : List Nat) :
    parseStringTokenAux (0x61 :: 0x22 :: 0x3A :: l) = some (0x3A :: l) := by
  rw [parseStringTokenAux.eq_def]
  norm_num
  rw [parseStringTokenAux.eq_def]
  norm_num

theorem parseToken_objKey (l : List Nat) :
    parseToken (0x22 :: 0x61 :: 0x22 :: 0x3A :: l)
      = (Token.String, 0x22 :: 0x61 :: 0x22 :: 0x3A :: l, 0x3A :: l) := by
  have h := parseStringTokenAux_key l
  calc parseToken (0x22 :: 0x61 :: 0x22 :: 0x3A :: l)
      = (match parseStringTokenAux (0x61 :: 0x22 :: 0x3A :: l) with
         | some e => (Token.String, 0x22 :: 0x61 :: 0x22 :: 0x3A :: l, e)
         | none => (Token.Invalid, 0x22 :: 0x61 :: 0x22 :: 0x3A :: l,
             0x22 :: 0x61 :: 0x22 :: 0x3A :: l)) := by rfl
    _ = (Token.String, 0x22 :: 0x61 :: 0x22 :: 0x3A :: l, 0x3A :: l) := by rw [h]

theorem parseToken_colon (l : List Nat) :
    parseToken (0x3A :: l) = (Token.ObjectPairSeparator, 0x3A :: l, l) := by rfl

theorem buildValue_zero (chars : List Nat) (depth : Nat) :
    buildValue 0 chars depth = none := by
  simp [buildValue]

theorem buildValue_depth (fuel : Nat) (chars : List Nat) (depth : Nat)
    (hd : stackLimit < depth) : buildValue fuel chars depth = none := by
  cases fuel with
  | zero => exact buildValue_zero chars depth
  | succ f =>
    simp only [buildValue, if_pos hd]

theorem buildValue_succ_lbrack (f depth : Nat) (l : List Nat)
    (hd : ¬ stackLimit < depth) :
    buildValue (f + 1) (0x5B :: l) depth = buildArray f l depth [] := by
  simp only [buildValue, if_neg hd, parseToken_lbrack]

theorem buildValue_succ_lbrace (f depth : Nat) (l : List Nat)
    (hd : ¬ stackLimit < depth) :
    buildValue (f + 1) (0x7B :: l) depth = buildObject f l depth [] := by
  simp only [buildValue, if_neg hd, parseToken_lbrace]

theorem buildArray_succ_lbrack_none (g depth : Nat) (acc : List JValue) (l : List Nat)
    (hv : buildValue g (0x5B :: l) (depth + 1) = none) :
    buildArray (g + 1) (0x5B :: l) depth acc = none := by
  simp only [buildArray, parseToken_lbrack, hv]

theorem buildObject_key_none (g depth : Nat) (acc : List (List Nat × JValue)) (l : List Nat)
    (hv : buildValue g l (depth + 1) = none) :
    buildObject (g + 1) (0x22 :: 0x61 :: 0x22 :: 0x3A :: l) depth acc = none := by
  simp only [buildObject, parseToken_objKey]
  have h1 : (0x22 :: 0x61 :: 0x22 :: 0x3A :: l).length - (0x3A :: l).length - 2 = 1 := by
    simp only [List.length_cons]
    omega
  rw [h1]
  simp only [List.drop_succ_cons, List.drop_zero, List.take_succ_cons, List.take_zero]
  simp only [parseToken_colon, hv]
  cases decodeString [0x61] <;> rfl

theorem buildArray_succ_lbrace_none (g depth : Nat) (acc : List JValue) (l : List Nat)
    (hv : buildValue g (0x7B :: l) (depth + 1) = none) :
    buildArray (g + 1) (0x7B :: l) depth acc = none := by
  simp only [buildArray, parseToken_lbrace, hv]

theorem buildValue_nestOpeners (fuel : Nat) :
    ∀ depth bs rest, stackLimit + 1 < depth + bs.length →
      buildValue fuel (nestOpeners bs ++ rest) depth = none := by
  induction fuel using Nat.strong_induction_on with
  | _ fuel ih =>
    intro depth bs rest h
    cases fuel with
    | zero => exact buildValue_zero _ _
    | succ f =>
      by_cases hd : stackLimit < depth
      · exact buildValue_depth _ _ _ hd
      · cases bs with
        | nil =>
          simp at h
          omega
        | cons b bs1 =>
          simp only [List.length_cons] at h
          have hlen1 : 1 ≤ bs1.length := by omega
          have hv : ∀ g, g < f + 1 →
              buildValue g (nestOpeners bs1 ++ rest) (depth + 1) = none := by
            intro g hg
            exact ih g (by omega) (depth + 1) bs1 rest (by omega)
          cases b with
          | true =>
            show buildValue (f + 1) (0x5B :: (nestOpeners bs1 ++ rest)) depth = none
            rw [buildValue_succ_lbrack f depth _ hd]
            cases f with
            | zero => simp [buildArray]
            | succ g =>
              cases bs1 with
              | nil => simp at hlen1
              | cons b2 bs2 =>
                cases b2 with
                | true =>
                  exact buildArray_succ_lbrack_none g depth [] _
                    (hv g (by omega))
                | false =>
                  exact buildArray_succ_lbrace_none g depth [] _
                    (hv g (by omega))
          | false =>
            show buildValue (f + 1)
              (0x7B :: 0x22 :: 0x61 :: 0x22 :: 0x3A :: (nestOpeners bs1 ++ rest)) depth
                = none
            rw [buildValue_succ_lbrace f depth _ hd]
            cases f with
            | zero => simp [buildObject]
            | succ g =>
              exact buildObject_key_none g depth [] _ (hv g (by omega))

end JSONImpl

open JSONImpl

/-- Claim C10: JSON parsing always terminates (the embedded builder is
a total function), because buildValue checks its depth argument against
the fixed stackLimit of 1000 before doing anything else; on any input
whose arrays or objects — in any mixture — nest past that limit, the
builder returns none at the offending depth and parseJSON returns
none. -/
theorem buildValue_depth_limited :
    (∀ fuel chars depth, stackLimit < depth → buildValue fuel chars depth = none)
    ∧ (∀ fuel depth bs rest, stackLimit + 1 < depth + bs.length →
        buildValue fuel (nestOpeners bs ++ rest) depth = none)
    ∧ (∀ bs, stackLimit + 2 ≤ bs.length → parseJSON (nestOpeners bs) = none) := by
  refine ⟨buildValue_depth,
    fun fuel depth bs rest h => buildValue_nestOpeners fuel depth bs rest h,
    fun bs hbs => ?_⟩
  unfold parseJSON
  have hb := buildValue_nestOpeners (jsonFuel (nestOpeners bs)) 0 bs []
    (by unfold stackLimit at hbs ⊢; omega)
  rw [List.append_nil] at hb
  rw [hb]

/-- Claim C10 witness: 1002 nested array openers exceed the depth limit
of 1000 and the parse fails. -/
theorem buildValue_depth_limited_witness :
    parseJSON (List.replicate 1002 0x5B) = none := by
  have e : ∀ k, nestOpeners (List.replicate k true) = List.replicate k 0x5B := by
    intro k
    induction k with
    | zero => rfl
    | succ n ihn => simp [List.replicate_succ, nestOpeners, ihn]
  have h := buildValue_depth_limited.2.2 (List.replicate 1002 true)
    (by rw [List.length_replicate]; decide)
  rw [e 1002] at h
  exact h

end WK
